import Mathlib

/-!
Verification of the `lonet` virtual-network package (pygolang flavour of
`lab.nexedi.com/kirr/go123`): a shallow embedding in Lean 4 of the parts of
`xnet/lonet/__init__.py` (and its helpers from `xerr` and `golang.gcompat`)
that the specification's claims are about, together with proofs or
refutations of those claims.

Conventions of the embedding:
* Python byte strings (`str` under Python 2) are `List Char` where only the
  character content matters (addresses, host names, registry values), and
  `List Nat` (byte values) where byte-level escaping matters (the lonet
  wire handshake).
* Python `int` is `Int`; list indices stay `Nat` except where Python's
  negative indexing is semantically relevant, where the index is `Int` and
  translated by `pyIdx`.
* A raising Python function becomes `Except PErr`; `PErr` mirrors the
  error taxonomy of the package (`neterror` objects, `xerr.Error` wrapping
  with a context prefix, `RegistryError`, and the interpreter-level
  `AttributeError` / `IndexError` that slips in the code can raise).
-/

/-- Errors of the embedded code.  `errorMsg` is `xerr.Error(msg)` (a leaf
message), `ectx msg e` is `xerr.Error(msg, e)` produced by `xerr.context`
or explicit wrapping, `regError` is `RegistryError`, `bugWrap` is the
`Error("BUG", err)` wrapping that `_regerr` applies to a
non-well-defined error, and `attributeError` / `indexError` / `valueError`
are the interpreter exceptions. The `neterror` objects of the package each
get their own constructor. -/
inductive PErr where
  | netDown                          -- "network is down"       (EBADFD)
  | hostDown                         -- "host is down"          (EBADFD)
  | sockDown                         -- "socket is down"        (EBADFD)
  | addrAlreadyUsed                  -- "address already in use" (EADDRINUSE)
  | addrNoListen                     -- "cannot listen on requested address"
  | connRefused                      -- "connection refused"    (ECONNREFUSED)
  | noHost                           -- "no such host"
  | hostDup                          -- "host already registered"
  | invalidAddr                      -- ValueError("... is not valid virtnet address")
  | protoError (msg : List Char)     -- protocolError
  | errorMsg (msg : List Char)       -- xerr.Error(msg)
  | ectx (msg : List Char) (e : PErr)  -- xerr.Error(msg, cause)
  | bugWrap (e : PErr)               -- xerr.Error("BUG", err) from _regerr
  | regError (e : PErr)              -- RegistryError(err, uri, op, ...)
  | attributeError                   -- AttributeError
  | indexError                       -- IndexError
  | panicBug                         -- pygolang panic(...)
  | eofError                         -- Error('unexpected EOF')
deriving DecidableEq, Repr

instance {ε α : Type} [DecidableEq ε] [DecidableEq α] : DecidableEq (Except ε α) :=
  fun x y =>
    match x, y with
    | .ok a, .ok b => decidable_of_iff (a = b) (by simp)
    | .error a, .error b => decidable_of_iff (a = b) (by simp)
    | .ok _, .error _ => .isFalse (by simp)
    | .error _, .ok _ => .isFalse (by simp)

/-- `xerr.cause`: walk to the deepest cause through `Error` wrappers
(`ectx`/`errorMsg` are the `Error` class; `bugWrap` is also an `Error`). -/
def PErr.cause : PErr → PErr
  | .ectx _ e => e.cause
  | .bugWrap e => e.cause
  | e => e

-- ---------------------------------------------------------------------
-- Python `int(str)` and `"%d"` formatting (used by Addr.parse / Addr.__str__)
-- ---------------------------------------------------------------------

/-- Python whitespace stripped by `int(str)`. -/
def pySpace (c : Char) : Bool :=
  c = ' ' ∨ c = '\t' ∨ c = '\n' ∨ c = '\r' ∨ c = '\x0b' ∨ c = '\x0c'

/-- decimal digit? -/
def isDigitC (c : Char) : Bool := '0' ≤ c ∧ c ≤ '9'

/-- value of a nonempty all-digit string, most significant first. -/
def digitsVal (ds : List Char) : Nat :=
  ds.foldl (fun a c => a * 10 + (c.toNat - 48)) 0

/-- parse a nonempty run of decimal digits, else `none`. -/
def decDigits (ds : List Char) : Option Nat :=
  if ds ≠ [] ∧ ds.all isDigitC then some (digitsVal ds) else none

/-- sign-and-digits part of `int(s)` after whitespace stripping. -/
def pyintCore : List Char → Option Int
  | [] => none
  | c :: ds =>
    if c = '-' then (decDigits ds).map (fun m => -(Int.ofNat m))
    else if c = '+' then (decDigits ds).map Int.ofNat
    else (decDigits (c :: ds)).map Int.ofNat

/-- Python 2 `int(s)` on a byte string: strip whitespace on both ends,
optional single `+`/`-` sign, then one or more decimal digits. -/
def pyint (s : List Char) : Option Int :=
  pyintCore (((s.dropWhile pySpace).reverse.dropWhile pySpace).reverse)

/-- decimal digits of `n`, most significant first (the `%d` format for a
nonnegative number). -/
def natDigits (n : Nat) : List Char :=
  if n < 10 then [Char.ofNat (48 + n)]
  else natDigits (n / 10) ++ [Char.ofNat (48 + n % 10)]
termination_by n
decreasing_by exact Nat.div_lt_self (by omega) (by omega)

/-- `"%d" % n` for a Python int. -/
def intRepr (n : Int) : List Char :=
  if n < 0 then '-' :: natDigits n.natAbs else natDigits n.natAbs

-- ---------------------------------------------------------------------
-- Addr  (virtnet address)
-- ---------------------------------------------------------------------

/-- `Addr` — address of a virtnet endpoint: `.net`, `.host`, `.port`. -/
structure Addr where
  net : List Char
  host : List Char
  port : Int
deriving DecidableEq, Repr

/-- `addrstr4(host, port)`: `"%s:%d" % (host, port)`; `Addr.__str__` elides
the network. -/
def addrstr4 (host : List Char) (port : Int) : List Char :=
  host ++ ':' :: intRepr port

/-- `str(a)` for an `Addr`. -/
def Addr.str (a : Addr) : List Char := addrstr4 a.host a.port

/-- one step of `split(':')`: prepend character `c` to a split. -/
def splitColonStep (c : Char) : List (List Char) → List (List Char)
  | [] => []            -- unreachable: splitColon is never empty
  | p :: ps => if c = ':' then [] :: p :: ps else (c :: p) :: ps

/-- Python `addr.split(':')` — split on every colon; always nonempty. -/
def splitColon : List Char → List (List Char)
  | [] => [[]]
  | c :: rest => splitColonStep c (splitColon rest)

/-- the shape check of `Addr.parse` on the split parts. -/
def addrParse2 (net : List Char) : List (List Char) → Except PErr Addr
  | [a, b] =>
    match pyint b with
    | some n => .ok ⟨net, a, n⟩
    | none => .error .invalidAddr
  | _ => .error .invalidAddr

/-- `Addr.parse(net, addr)`:
`addrv = addr.split(':')`; exactly two parts, the right one a Python int;
any failure is reported as ValueError('%s is not valid virtnet address'). -/
def Addr.parse (net : List Char) (addr : List Char) : Except PErr Addr :=
  addrParse2 net (splitColon addr)

-- ---------------------------------------------------------------------
-- virtnet: Host, socket table, port allocator
-- ---------------------------------------------------------------------

/-- One `socket` entry of `Host._socketv`.  `conn` / `listener` model the
`._conn` / `._listener` fields being non-None.  `acceptConn` models the
*distinct, dynamically created* attribute `conn` (no underscore) that
`listener.accept` assigns with `sk.conn = c`; it is not the `_conn` field
that `socket._empty` and the rest of the code read. -/
structure Sock where
  port : Int
  conn : Bool
  listener : Bool
  acceptConn : Bool
deriving DecidableEq, Repr

/-- State of one `Host`: its subnetwork's name, its own name, the sparse
socket table `_socketv`, the host `_down` latch and the subnetwork `_down`
latch (the latter is all the host code reads of its subnet on these paths). -/
structure HostState where
  network : List Char
  name : List Char
  socketv : List (Option Sock)
  down : Bool
  netDown : Bool
deriving DecidableEq, Repr

/-- the scan loop of `Host._allocFreeSocket`:
`port = 1; while port < len(socketv): if socketv[port] is None: break; port += 1`. -/
def scanFrom (v : List (Option Sock)) (port : Nat) : Nat :=
  if h : port < v.length then
    match v[port] with
    | none => port
    | some _ => scanFrom v (port + 1)
  else port
termination_by v.length - port

/-- the extension loop of `_allocFreeSocket` and `listen`:
`while port >= len(socketv): socketv.append(None)` (`port : Nat` case). -/
def extendLoop (v : List (Option Sock)) (port : Nat) : List (Option Sock) :=
  if port ≥ v.length then extendLoop (v ++ [none]) port else v
termination_by port + 1 - v.length
decreasing_by simp; omega

/-- same loop when the port is a Python int (`listen` with an explicit
port): for a negative port the loop body never runs. -/
def extendLoopI (v : List (Option Sock)) (port : Int) : List (Option Sock) :=
  if port ≥ (v.length : Int) then extendLoopI (v ++ [none]) port else v
termination_by (port + 1 - v.length).toNat
decreasing_by simp; omega

/-- `Host._allocFreeSocket`: find the first free port from 1, extend the
table so the port fits, install a fresh `socket(h, port)` there.  Returns
the new table state and the chosen port. -/
def allocFreeSocket (h : HostState) : HostState × Nat :=
  let port := scanFrom h.socketv 1
  let v := extendLoop h.socketv port
  let sk : Sock := ⟨(port : Int), false, false, false⟩
  ({ h with socketv := v.set port (some sk) }, port)

/-- Python sequence indexing for `socketv[i]` with `i : Int`: negative
indices count from the end; out of range is an `IndexError`. -/
def pyIdx (len : Nat) (i : Int) : Option Nat :=
  if 0 ≤ i then (if i < (len : Int) then some i.toNat else none)
  else (if 0 ≤ (len : Int) + i then some ((len : Int) + i).toNat else none)

/-- `Host._parseAddr`: parse from the host's point of view; an empty host
part is replaced by the host's own name. -/
def parseAddr (h : HostState) (addr : List Char) : Except PErr Addr :=
  match Addr.parse h.network addr with
  | .error e => .error e
  | .ok a => .ok (if a.host = [] then { a with host := h.name } else a)

/-- `Host._excDown()`: network is down if the subnet down latch is ready,
else host is down. -/
def hostExcDown (h : HostState) : PErr :=
  if h.netDown then .netDown else .hostDown

/-- `Host.listen(laddr)` body (inside `errctx("listen %s %s")`).
Returns the new host state and the (non-negative, Python) index of the
socket slot the new listener was installed at. -/
def listenInner (h : HostState) (laddr : List Char) : Except PErr (HostState × Nat) :=
  match parseAddr h laddr with
  | .error e => .error e
  | .ok a =>
    if a.host ≠ h.name then .error .addrNoListen
    else if h.down then .error (hostExcDown h)
    else if a.port = 0 then
      -- sk = h._allocFreeSocket(); l = listener(sk); sk._listener = l
      let (h2, p) := allocFreeSocket h
      match h2.socketv[p]? with
      | some (some sk) =>
        .ok ({ h2 with socketv := h2.socketv.set p (some { sk with listener := true }) }, p)
      | _ => .ok (h2, p)      -- unreachable: allocFreeSocket installed slot p
    else
      -- while a.port >= len(socketv): append None
      let v := extendLoopI h.socketv a.port
      match pyIdx v.length a.port with
      | none => .error .indexError            -- socketv[a.port] raises IndexError
      | some i =>
        match v[i]? with
        | some (some _) => .error .addrAlreadyUsed
        | _ =>
          -- sk = socket(h, a.port); socketv[a.port] = sk; sk._listener = listener(sk)
          let sk : Sock := ⟨a.port, false, true, false⟩
          .ok ({ h with socketv := v.set i (some sk) }, i)

/-- `Host.listen(laddr)`: `""` is treated as `":0"`, and any error is
wrapped with the `errctx("listen %s %s" % (h.network(), laddr))` context. -/
def Host.listen (h : HostState) (laddr0 : List Char) : Except PErr (HostState × Nat) :=
  let laddr := if laddr0 = [] then [':', '0'] else laddr0
  match listenInner h laddr with
  | .ok r => .ok r
  | .error e =>
    .error (.ectx ("listen ".toList ++ h.network ++ [' '] ++ laddr) e)

/-- One successful rendezvous iteration of `listener.accept` (a `dialReq`
arrived and the dialer acked with `None`): allocate a fresh socket with
`_allocFreeSocket`, then `c = conn(sk, ...); sk.conn = c` — note that the
assignment creates the dynamic attribute `conn`, it does NOT set the
`_conn` field.  Returns the new host state and the allocated port. -/
def acceptOnce (h : HostState) : HostState × Nat :=
  let (h2, p) := allocFreeSocket h
  match h2.socketv[p]? with
  | some (some sk) =>
    ({ h2 with socketv := h2.socketv.set p (some { sk with acceptConn := true }) }, p)
  | _ => (h2, p)              -- unreachable: allocFreeSocket installed slot p

/-- `socket._empty()`: both `_conn` and `_listener` are None. -/
def sockEmpty (sk : Sock) : Bool := sk.conn = false ∧ sk.listener = false

/-- `listener.close()` for the listener sitting at slot `i`:
`_shutdown` (latch only), then if the close-once latch was not yet set,
under the host lock do `sk._listener = None`, and if the socket became
empty, `h._socketv[sk.port] = None`.  The last statement reads the
attribute `sk.port`, which `socket` does not define (the field is
`_port`), so it raises `AttributeError`. -/
def listenerClose (h : HostState) (i : Nat) (closeOnceSet : Bool) :
    Except PErr HostState :=
  if closeOnceSet then .ok h
  else
    match h.socketv[i]? with
    | some (some sk) =>
      let sk2 := { sk with listener := false }
      if sockEmpty sk2 then .error .attributeError   -- sk.port → AttributeError
      else .ok { h with socketv := h.socketv.set i (some sk2) }
    | _ => .ok h

/-- `hostShutdown` (`Host._shutdown`): once-latched; fires the host down
latch and shuts down every present conn/listener (their shutdown closes
channels and raw streams, which changes none of the modelled table
fields — sockets stay in the table). -/
def hostShutdown (h : HostState) : HostState :=
  if h.down then h else { h with down := true }

/-- The table invariant of claim C1, decidably: index 0 (when present) is
vacant, and every occupied index `p` holds a socket whose `_port` field
equals `p` and which carries a listener or a conn (the `_conn` field —
what `socket._empty` and the shutdown/close paths read). -/
def tableInvB (h : HostState) : Bool :=
  (match h.socketv.head? with
   | some s0 => s0 = none
   | none => true) &&
  h.socketv.enum.all fun pi =>
    match pi.2 with
    | none => true
    | some sk => decide (sk.port = (pi.1 : Int)) && (sk.conn || sk.listener)

-- ---------------------------------------------------------------------
-- VirtSubNetwork: new_host, Host.close, autoclose
-- ---------------------------------------------------------------------

/-- State of a `VirtSubNetwork` as the host bookkeeping paths see it.
`nopenhosts` is the `_nopenhosts` attribute set by `__init__` and
incremented by `new_host`; `nopenHostsAttr` is the *distinct* attribute
`_nopenHosts` that `Host.close` and `autoclose` read — no code ever
assigns it, so it stays absent (`none`); reading it raises
`AttributeError`. -/
structure SubState where
  network : List Char
  hostmap : List (List Char)       -- names registered in _hostmap
  nopenhosts : Int                 -- ._nopenhosts
  nopenHostsAttr : Option Int      -- ._nopenHosts (never assigned anywhere)
  autoclose : Bool                 -- ._autoclose
  down : Bool                      -- ._down fired
deriving DecidableEq, Repr

/-- `VirtSubNetwork.__init__(network, registry)`. -/
def subInit (network : List Char) : SubState :=
  { network := network, hostmap := [], nopenhosts := 0,
    nopenHostsAttr := none, autoclose := false, down := false }

/-- `VirtSubNetwork.new_host(name)` —
`_vnet_newhost` (the lonet hook announces the name in the registry; here
its success is the modelled case — registry behaviour is modelled
separately), then under `_hostmu`: panic if name already in `_hostmap`,
else insert and `self._nopenhosts += 1`. -/
def newHost (n : SubState) (name : List Char) : Except PErr SubState :=
  if name ∈ n.hostmap then .error .panicBug
  else .ok { n with hostmap := n.hostmap ++ [name],
                    nopenhosts := n.nopenhosts + 1 }

/-- `Host.close()`: the deferred `autoclose` helper runs after the
`_shutdown` cascade; under `h._close_once` it executes
`n._nopenHosts -= 1` — reading the absent attribute `_nopenHosts`
(the counter is `_nopenhosts`), hence `AttributeError`; the remaining
statements are translated for completeness. Returns the host state after
the shutdown cascade and the subnet outcome. -/
def hostClose (h : HostState) (n : SubState) (closeOnceSet : Bool) :
    HostState × Except PErr SubState :=
  let h2 := hostShutdown h
  if closeOnceSet then (h2, .ok n)
  else
    match n.nopenHostsAttr with
    | none => (h2, .error .attributeError)      -- n._nopenHosts -= 1
    | some k =>
      let k2 := k - 1
      let n2 := { n with nopenHostsAttr := some k2 }
      if k2 < 0 then (h2, .error .panicBug)
      else if n2.autoclose ∧ k2 = 0 then (h2, .ok { n2 with down := true })
      else (h2, .ok n2)

/-- `VirtSubNetwork.autoclose()`: `if n._nopenHosts == 0: panic(...)` —
again reads the absent `_nopenHosts` attribute first. -/
def subAutoclose (n : SubState) : Except PErr SubState :=
  match n.nopenHostsAttr with
  | none => .error .attributeError
  | some k =>
    if k = 0 then .error .panicBug
    else .ok { n with autoclose := true }

-- ---------------------------------------------------------------------
-- Registry (SQLiteRegistry over a modelled SQLite file)
-- ---------------------------------------------------------------------

/-- assoc-list lookup (first match), modelling a primary-key SELECT. -/
def lookupA : List (List Char × List Char) → List Char → Option (List Char)
  | [], _ => none
  | (k, v) :: rest, key => if k = key then some v else lookupA rest key

/-- the two tables of the registry database file. -/
structure RegDB where
  hosts : List (List Char × List Char)   -- hosts(hostname PRIMARY KEY, osladdr)
  meta : List (List Char × List Char)    -- meta(name PRIMARY KEY, value)
deriving DecidableEq, Repr

/-- `SQLiteRegistry._config(conn, name)`: empty string when absent. -/
def regConfig (db : RegDB) (name : List Char) : List Char :=
  match lookupA db.meta name with
  | some v => v
  | none => []

/-- `INSERT OR REPLACE INTO meta` (`_set_config`). -/
def regSetConfig (db : RegDB) (name value : List Char) : RegDB :=
  { db with meta := (db.meta.filter (fun kv => kv.1 ≠ name)) ++ [(name, value)] }

/-- `SQLiteRegistry.schema_ver`. -/
def schemaVer : List Char := "lonet.1".toList

/-- `SQLiteRegistry._setup(network)` body (inside `errctx('setup %s')`):
create tables if absent (a no-op on the model), then check/write
`schemaver` and `network`.  On a schema version mismatch the code
evaluates `qq(r._schema_ver)` to build the message — but the attribute is
`schema_ver`, so an `AttributeError` is raised instead of the intended
mismatch Error. -/
def regSetup (db : RegDB) (network : List Char) : Except PErr RegDB :=
  let ver0 := regConfig db "schemaver".toList
  let db1 := if ver0 = [] then regSetConfig db "schemaver".toList schemaVer else db
  let ver := if ver0 = [] then schemaVer else ver0
  if ver ≠ schemaVer then .error .attributeError  -- qq(r._schema_ver) → AttributeError
  else
    let dbn0 := regConfig db1 "network".toList
    let db2 := if dbn0 = [] then regSetConfig db1 "network".toList network else db1
    let dbn := if dbn0 = [] then network else dbn0
    if dbn ≠ network then
      .error (.errorMsg ("network name mismatch".toList))
    else .ok db2

/-- the `@_regerr` wrapper: a well-defined error (the registered neterror
objects, `protocolError`, and `xerr.Error` itself) is passed through;
anything else is first wrapped as `Error("BUG", err)`; then everything is
raised as `RegistryError(err, uri, op, ...)`. -/
def regerrWrap (e : PErr) : PErr :=
  let wde : Bool :=
    match e with
    | .netDown | .hostDown | .sockDown | .addrAlreadyUsed | .addrNoListen
    | .connRefused | .noHost | .hostDup | .protoError _
    | .errorMsg _ | .ectx _ _ | .bugWrap _ => true
    | _ => false
  .regError (if wde then e else .bugWrap e)

/-- `SQLiteRegistry.__init__(dburi, network)` (decorated `@_regerr`): run
`_setup` inside `errctx('setup %s' % qq(network))`. -/
def registryInit (db : RegDB) (network : List Char) : Except PErr RegDB :=
  match regSetup db network with
  | .ok db2 => .ok db2
  | .error e => .error (regerrWrap (.ectx ("setup ".toList ++ network) e))

/-- `SQLiteRegistry.announce(hostname, osladdr)` (decorated `@_regerr`):
INSERT; a UNIQUE-constraint violation becomes `ErrHostDup` and the
transaction leaves the table unchanged. -/
def announce (db : RegDB) (hostname osladdr : List Char) : Except PErr RegDB :=
  match lookupA db.hosts hostname with
  | some _ => .error (regerrWrap .hostDup)
  | none => .ok { db with hosts := db.hosts ++ [(hostname, osladdr)] }

/-- `SQLiteRegistry.query(hostname)` (decorated `@_regerr`):
SELECT osladdr; `None` when absent (the registry's PRIMARY KEY rules out
the duplicate-row Error branch). -/
def regQuery (db : RegDB) (hostname : List Char) : Except PErr (Option (List Char)) :=
  .ok (lookupA db.hosts hostname)

-- ---------------------------------------------------------------------
-- skreadline
-- ---------------------------------------------------------------------

/-- loop of `skreadline`: `fuel = maxlen - len(line)` iterations remain;
the stream is the list of bytes still readable (its end is EOF). -/
def skreadlineAux (stream : List Nat) (fuel : Nat) (line : List Nat) :
    Except PErr (List Nat × List Nat) :=
  match fuel with
  | 0 => .ok (line, stream)
  | fuel' + 1 =>
    match stream with
    | [] => .error .eofError                   -- raise Error('unexpected EOF')
    | b :: rest =>
      if b = 10 then .ok (line ++ [b], rest)
      else skreadlineAux rest fuel' (line ++ [b])

/-- `skreadline(sk, maxlen)`: read byte by byte while `len(line) < maxlen`;
EOF raises; a newline stops and is included.  Returns the line and the
bytes left on the stream. -/
def skreadline (stream : List Nat) (maxlen : Nat) :
    Except PErr (List Nat × List Nat) :=
  skreadlineAux stream maxlen []

-- ---------------------------------------------------------------------
-- lonet handshake: qq quoting, string_escape decoding, and the two
-- handshake-line regexps (_lodial_re / _loreply_re)
-- ---------------------------------------------------------------------

/-- bytes of a (pure-ASCII) Lean string literal. -/
def strBytes (s : String) : List Nat := s.toList.map Char.toNat

/-- lower-case hex digit byte of `d < 16`. -/
def hexDigit (d : Nat) : Nat := if d < 10 then 48 + d else 87 + d

/-- Modelled from the spec: `golang.gcompat.qq` is code of this repository
that is not under `src/` (only its test `golang/gcompat_test.py` is).
Per the spec (sections 4.8 and 6, consistently with that test): strings
are wrapped in `"` and escape `"` to a backslash-quote, backslash to a
doubled backslash, and bytes below 0x20 / 0x7F and up use the standard
C short escapes (BEL, BS, TAB, LF, VT, FF, CR) or a two-digit hex escape.
This is the escape of one byte. -/
def qqEsc (b : Nat) : List Nat :=
  if b = 34 then [92, 34]
  else if b = 92 then [92, 92]
  else if b = 7 then [92, 97]
  else if b = 8 then [92, 98]
  else if b = 9 then [92, 116]
  else if b = 10 then [92, 110]
  else if b = 11 then [92, 118]
  else if b = 12 then [92, 102]
  else if b = 13 then [92, 114]
  else if b < 32 ∨ 127 ≤ b then [92, 120, hexDigit (b / 16), hexDigit (b % 16)]
  else [b]

/-- the quoted *content* emitted by `qq` (everything between the two
double quotes). -/
def qqc : List Nat → List Nat
  | [] => []
  | b :: rest => qqEsc b ++ qqc rest

/-- Modelled from the spec (see `qqEsc`): `qq(s)` — quoted form of `s`. -/
def qq (s : List Nat) : List Nat := 34 :: qqc s ++ [34]

/-- hex digit value (both cases), as `string_escape` accepts. -/
def hexVal (c : Nat) : Option Nat :=
  if 48 ≤ c ∧ c ≤ 57 then some (c - 48)
  else if 97 ≤ c ∧ c ≤ 102 then some (c - 87)
  else if 65 ≤ c ∧ c ≤ 70 then some (c - 55)
  else none

/-- octal digit byte? -/
def isOctD (c : Nat) : Bool := 48 ≤ c ∧ c ≤ 55

/-- Python 2 `.decode('string_escape')`: the escape decoding applied to
every captured group of the handshake lines.  Recognised escapes:
`\n \t \r \a \b \f \v`, escaped quotes, doubled backslash,
backslash-newline (dropped), `\xHH` (exactly two hex digits, else
ValueError), one to three octal digits; an unrecognised escape is kept
verbatim; a trailing lone backslash is a ValueError.  `none` models the
ValueError cases. -/
def unesc : List Nat → Option (List Nat)
  | [] => some []
  | b :: rest =>
    if b = 92 then
      match rest with
      | [] => none                             -- trailing backslash
      | c :: rest2 =>
        if c = 110 then (unesc rest2).map (fun r => 10 :: r)
        else if c = 116 then (unesc rest2).map (fun r => 9 :: r)
        else if c = 114 then (unesc rest2).map (fun r => 13 :: r)
        else if c = 97 then (unesc rest2).map (fun r => 7 :: r)
        else if c = 98 then (unesc rest2).map (fun r => 8 :: r)
        else if c = 102 then (unesc rest2).map (fun r => 12 :: r)
        else if c = 118 then (unesc rest2).map (fun r => 11 :: r)
        else if c = 39 then (unesc rest2).map (fun r => 39 :: r)
        else if c = 34 then (unesc rest2).map (fun r => 34 :: r)
        else if c = 92 then (unesc rest2).map (fun r => 92 :: r)
        else if c = 10 then unesc rest2        -- line continuation: dropped
        else if c = 120 then
          match rest2 with
          | h1 :: h2 :: rest3 =>
            match hexVal h1, hexVal h2 with
            | some x, some y => (unesc rest3).map (fun r => (16 * x + y) :: r)
            | _, _ => none                     -- invalid hex escape
          | _ => none
        else if isOctD c then
          match rest2 with
          | d2 :: d3 :: rest4 =>
            if isOctD d2 then
              if isOctD d3 then
                (unesc rest4).map
                  (fun r => (((c - 48) * 8 + (d2 - 48)) * 8 + (d3 - 48)) :: r)
              else (unesc (d3 :: rest4)).map (fun r => ((c - 48) * 8 + (d2 - 48)) :: r)
            else (unesc (d2 :: d3 :: rest4)).map (fun r => (c - 48) :: r)
          | [d2] =>
            if isOctD d2 then some [(c - 48) * 8 + (d2 - 48)]
            else (unesc [d2]).map (fun r => (c - 48) :: r)
          | [] => some [c - 48]
        else (unesc rest2).map (fun r => 92 :: c :: r)   -- unknown escape: kept
    else (unesc rest).map (fun r => b :: r)

/-- try consuming the literal `lit` from the front of `s`. -/
def dropLit : List Nat → List Nat → Option (List Nat)
  | [], s => some s
  | _ :: _, [] => none
  | l :: ls, c :: cs => if c = l then dropLit ls cs else none

/-- One lazy quoted group of the handshake regexps followed by the literal
`sep`, then the continuation `k` — the backtracking semantics of Python's
`(?P<g>.*?[^\\])` followed by `sep`: at each position first try to let
`[^\\]` consume the current byte (allowed when it is not a backslash) with
`sep` and the rest of the pattern matching right after; only if that whole
continuation fails may the lazy `.*?` consume the byte (`.` refuses a
newline) and move on.  `acc` is what the group has consumed so far. -/
def grpThen (sep : List Nat) (k : List Nat → Option α) :
    List Nat → List Nat → Option (List Nat × α)
  | _, [] => none
  | acc, c :: rest =>
    (if c ≠ 92 then
       (dropLit sep rest).bind (fun s2 => (k s2).map (fun a => (acc ++ [c], a)))
     else none).orElse
      (fun _ => if c ≠ 10 then grpThen sep k (acc ++ [c]) rest else none)

/-- Python regex whitespace class (for `[^\s]`). -/
def isWS (c : Nat) : Bool := c = 32 ∨ c = 9 ∨ c = 10 ∨ c = 13 ∨ c = 11 ∨ c = 12

/-- end-of-group step of `(?P<reply>[^\s]+)` followed by `sep` then `k`:
the group must be nonempty, and `sep` plus the continuation must match at
the current position. -/
def vrbEnd (sep : List Nat) (k : List Nat → Option α) (acc s : List Nat) :
    Option (List Nat × α) :=
  if acc = [] then none
  else (dropLit sep s).bind (fun s2 => (k s2).map (fun a => (acc, a)))

/-- The greedy group `(?P<reply>[^\s]+)` followed by the literal `sep`,
then the continuation `k`: at each position first try to consume the
current byte (allowed when it is not whitespace) — greedily — and only if
the longer match fails, try to end the group here. -/
def vrbThen (sep : List Nat) (k : List Nat → Option α) :
    List Nat → List Nat → Option (List Nat × α)
  | acc, [] => vrbEnd sep k acc []
  | acc, c :: rest =>
    if isWS c then vrbEnd sep k acc (c :: rest)
    else (vrbThen sep k (acc ++ [c]) rest).orElse (fun _ => vrbEnd sep k acc (c :: rest))

/-- literal pieces of `_lodial_re` and `_loreply_re`. -/
def loHeadD : List Nat := strBytes "> lonet \""
def loSep1 : List Nat := strBytes "\" dial \""
def loSep2 : List Nat := strBytes "\" \""
def loSep3 : List Nat := strBytes "\"\n"
def loHeadR : List Nat := strBytes "< lonet \""
def loSepR1 : List Nat := strBytes "\" "
def loSepR2 : List Nat := strBytes " \""

/-- `_lodial_re.match(line)`:
`> lonet "(?P<network>.*?[^\\])" dial "(?P<src>.*?[^\\])" "(?P<dst>.*?[^\\])"\n`
— the three captured groups, or `None`.  (`re.match` anchors at the start
only; bytes after the final newline are ignored.) -/
def lodialMatch (line : List Nat) : Option (List Nat × List Nat × List Nat) :=
  (dropLit loHeadD line).bind (fun s =>
    (grpThen loSep1 (fun s2 =>
       grpThen loSep2 (fun s3 =>
         grpThen loSep3 (fun r => some r) [] s3) [] s2) [] s).map
      (fun g => (g.1, g.2.1, g.2.2.1)))

/-- `_loreply_re.match(line)`:
`< lonet "(?P<network>.*?[^\\])" (?P<reply>[^\s]+) "(?P<arg>.*?[^\\])"\n`. -/
def loreplyMatch (line : List Nat) : Option (List Nat × List Nat × List Nat) :=
  (dropLit loHeadR line).bind (fun s =>
    (grpThen loSepR1 (fun s2 =>
       vrbThen loSepR2 (fun s3 =>
         grpThen loSep3 (fun r => some r) [] s3) [] s2) [] s).map
      (fun g => (g.1, g.2.1, g.2.2.1)))

/-- the request line sent by `__loconnect`:
`"> lonet %s dial %s %s\n" % (qq(network), qq(src), qq(dst))`. -/
def dialLine (network src dst : List Nat) : List Nat :=
  strBytes "> lonet " ++ qq network ++ strBytes " dial " ++ qq src
    ++ strBytes " " ++ qq dst ++ [10]

/-- the reply line sent by `__loaccept`'s `reply()` helper:
`"< lonet %s %s\n" % (qq(network), reply)` with
`reply = "connected %s" % qq(arg)` or `"E %s" % qq(arg)`. -/
def replyLine (network verb arg : List Nat) : List Nat :=
  strBytes "< lonet " ++ qq network ++ [32] ++ verb ++ [32] ++ qq arg ++ [10]

-- ---------------------------------------------------------------------
-- Claim theorems
-- ---------------------------------------------------------------------

unseal scanFrom extendLoop extendLoopI in
/-- C1: the claimed table invariant — every occupied index `p > 0` of
`socketv` holds a socket with `port == p` carrying at least one of
listener/conn, index 0 vacant — is violated by the code right where the
claim points: `listener.accept` installs the new conn with `sk.conn = c`,
creating a stray attribute instead of setting the `_conn` field.  On a
fresh host, after `listen("")` (which yields the listener socket at port
1) the invariant holds; after one successful accept rendezvous the
freshly allocated socket at index 2 has `_conn` and `_listener` both None
and the invariant is false. -/
theorem c1_accept_breaks_table_invariant :
    Host.listen ⟨"n".toList, "a".toList, [], false, false⟩ [] =
      .ok (⟨"n".toList, "a".toList,
            [none, some ⟨1, false, true, false⟩], false, false⟩, 1)
    ∧ tableInvB ⟨"n".toList, "a".toList,
        [none, some ⟨1, false, true, false⟩], false, false⟩ = true
    ∧ acceptOnce ⟨"n".toList, "a".toList,
        [none, some ⟨1, false, true, false⟩], false, false⟩ =
      (⟨"n".toList, "a".toList,
        [none, some ⟨1, false, true, false⟩, some ⟨2, false, false, true⟩],
        false, false⟩, 2)
    ∧ tableInvB ⟨"n".toList, "a".toList,
        [none, some ⟨1, false, true, false⟩, some ⟨2, false, false, true⟩],
        false, false⟩ = false := by
  decide

/-- C2: `Host.close()` does not complete without raising, and never
decrements the subnetwork's open-host count: `new_host` increments
`_nopenhosts` (and `__init__` creates only that attribute), but the
close-once body of `Host.close` — like `autoclose` — reads `_nopenHosts`,
an attribute no code ever assigns, so the very first `h.close()` on a
subnetwork with one open host raises `AttributeError` after the shutdown
cascade, leaving the count untouched. -/
theorem c2_host_close_attribute_bug :
    newHost (subInit "n".toList) "a".toList =
      .ok ⟨"n".toList, ["a".toList], 1, none, false, false⟩
    ∧ (⟨"n".toList, ["a".toList], 1, none, false, false⟩ : SubState).nopenhosts = 1
    ∧ (⟨"n".toList, ["a".toList], 1, none, false, false⟩ : SubState).nopenHostsAttr = none
    ∧ hostClose ⟨"n".toList, "a".toList, [], false, false⟩
        ⟨"n".toList, ["a".toList], 1, none, false, false⟩ false =
      (⟨"n".toList, "a".toList, [], true, false⟩, .error .attributeError)
    ∧ subAutoclose ⟨"n".toList, ["a".toList], 1, none, false, false⟩ =
      .error .attributeError := by
  decide

unseal scanFrom extendLoop extendLoopI in
/-- C5: `listener.close()` is not silent on its primary path: when the
socket becomes empty it executes `h._socketv[sk.port] = None`, but
`socket` defines only `_port` (cf. `conn.close`, which uses `sk._port`),
so the first close of a plain listener raises `AttributeError` instead of
nulling the slot.  The close-once latch does make a second close a silent
no-op. -/
theorem c5_listener_close_attribute_bug :
    Host.listen ⟨"n".toList, "a".toList, [], false, false⟩ ":1".toList =
      .ok (⟨"n".toList, "a".toList,
            [none, some ⟨1, false, true, false⟩], false, false⟩, 1)
    ∧ listenerClose ⟨"n".toList, "a".toList,
        [none, some ⟨1, false, true, false⟩], false, false⟩ 1 false =
      .error .attributeError
    ∧ listenerClose ⟨"n".toList, "a".toList,
        [none, some ⟨1, false, true, false⟩], false, false⟩ 1 true =
      .ok ⟨"n".toList, "a".toList,
            [none, some ⟨1, false, true, false⟩], false, false⟩ := by
  decide

/-- C8: opening a registry whose stored `schemaver` differs from the
current `"lonet.1"` does fail with a `RegistryError`, but the error it
carries is an `AttributeError` raised while *building* the mismatch
message (`qq(r._schema_ver)` — the attribute is `schema_ver`), not the
claimed *schema version mismatch* error with the wanted and stored
versions; with `schemaver` absent the current value is written and the
open succeeds. -/
theorem c8_schema_version_attribute_bug :
    registryInit ⟨[], [("schemaver".toList, "lonet.0".toList)]⟩ "ccc".toList =
      .error (.regError (.ectx "setup ccc".toList .attributeError))
    ∧ registryInit ⟨[], []⟩ "ccc".toList =
      .ok ⟨[], [("schemaver".toList, "lonet.1".toList),
                ("network".toList, "ccc".toList)]⟩ := by
  decide

/-- any successful `skreadline` read appends at most `fuel` bytes to the
accumulated line, splits the stream, and contains no interior newline. -/
theorem skreadlineAux_ok (fuel : Nat) :
    ∀ (stream line l r : List Nat),
      skreadlineAux stream fuel line = .ok (l, r) →
      ∃ t, l = line ++ t ∧ t.length ≤ fuel ∧ stream = t ++ r ∧
        ∀ j, j + 1 < t.length → t[j]? ≠ some 10 := by
  induction fuel with
  | zero =>
    intro stream line l r h
    simp [skreadlineAux] at h
    exact ⟨[], by simp [h.1.symm], by simp, by simp [h.2.symm], by simp⟩
  | succ f ih =>
    intro stream line l r h
    match stream with
    | [] => simp [skreadlineAux] at h
    | b :: rest =>
      by_cases hb : b = 10
      · subst hb
        simp [skreadlineAux] at h
        refine ⟨[10], by simp [h.1.symm], by simp, by simp [h.2.symm], ?_⟩
        intro j hj
        simp at hj
      · rw [skreadlineAux, if_neg hb] at h
        obtain ⟨t, hl, hlen, hs, hnl⟩ := ih rest (line ++ [b]) l r h
        refine ⟨b :: t, by simp [hl], by simpa using hlen, by simp [hs], ?_⟩
        intro j hj
        cases j with
        | zero => simpa using hb
        | succ j' =>
          simp only [List.getElem?_cons_succ]
          exact hnl j' (by simpa using hj)

/-- `skreadline` stops at the first newline, which it includes. -/
theorem skreadlineAux_newline (i : Nat) :
    ∀ (fuel : Nat) (stream line : List Nat), i < fuel →
      (∀ j, j < i → stream[j]? ≠ some 10) → stream[i]? = some 10 →
      skreadlineAux stream fuel line =
        .ok (line ++ stream.take (i + 1), stream.drop (i + 1)) := by
  induction i with
  | zero =>
    intro fuel stream line hfuel _ hi
    match fuel, hfuel with
    | f + 1, _ =>
      match stream, hi with
      | b :: rest, hi =>
        simp at hi
        subst hi
        simp [skreadlineAux]
  | succ i' ih =>
    intro fuel stream line hfuel hpre hi
    match fuel, hfuel with
    | f + 1, hfuel =>
      match stream with
      | [] => simp at hi
      | b :: rest =>
        have hb : ¬ b = 10 := by
          have := hpre 0 (by omega)
          simpa using this
        rw [skreadlineAux, if_neg hb]
        have := ih f rest (line ++ [b]) (by omega)
          (fun j hj => by
            have := hpre (j + 1) (by omega)
            simpa using this)
          (by simpa using hi)
        rw [this]
        simp

/-- with no newline among the first `fuel` bytes and at least `fuel`
bytes available, `skreadline` returns exactly `fuel` bytes, no error. -/
theorem skreadlineAux_maxlen (fuel : Nat) :
    ∀ (stream line : List Nat),
      (∀ j, j < fuel → stream[j]? ≠ some 10) → fuel ≤ stream.length →
      skreadlineAux stream fuel line =
        .ok (line ++ stream.take fuel, stream.drop fuel) := by
  induction fuel with
  | zero => intro stream line _ _; simp [skreadlineAux]
  | succ f ih =>
    intro stream line hnl hlen
    match stream with
    | [] => simp at hlen
    | b :: rest =>
      have hb : ¬ b = 10 := by
        have := hnl 0 (by omega)
        simpa using this
      rw [skreadlineAux, if_neg hb]
      have := ih rest (line ++ [b])
        (fun j hj => by
          have := hnl (j + 1) (by omega)
          simpa using this)
        (by simpa using hlen)
      rw [this]
      simp

/-- EOF before a newline within the budget raises `unexpected EOF`
(whatever was already read is dropped). -/
theorem skreadlineAux_eof :
    ∀ (stream : List Nat) (fuel : Nat) (line : List Nat),
      stream.length < fuel → 10 ∉ stream →
      skreadlineAux stream fuel line = .error .eofError := by
  intro stream
  induction stream with
  | nil =>
    intro fuel line hlen _
    match fuel, hlen with
    | f + 1, _ => simp [skreadlineAux]
  | cons b rest ih =>
    intro fuel line hlen hnl
    match fuel, hlen with
    | f + 1, hlen =>
      have hb : ¬ b = 10 := fun h => hnl (by simp [h])
      rw [skreadlineAux, if_neg hb]
      exact ih f (line ++ [b]) (by simpa using hlen) (fun h => hnl (by simp [h]))

/-- C9: `skreadline(sk, maxlen)` returns at most `maxlen` bytes; it reads
byte by byte and stops at the first newline, which is included in the
result; if `maxlen` bytes are read without a newline they are returned
without error; and EOF before a newline raises `unexpected EOF`, losing
the bytes already read. -/
theorem c9_skreadline (stream : List Nat) (maxlen : Nat) :
    (∀ l r, skreadline stream maxlen = .ok (l, r) →
       l.length ≤ maxlen ∧ stream = l ++ r ∧ ∀ j, j + 1 < l.length → l[j]? ≠ some 10)
    ∧ (∀ i, i < maxlen → (∀ j, j < i → stream[j]? ≠ some 10) → stream[i]? = some 10 →
        skreadline stream maxlen = .ok (stream.take (i + 1), stream.drop (i + 1)))
    ∧ ((∀ j, j < maxlen → stream[j]? ≠ some 10) → maxlen ≤ stream.length →
        skreadline stream maxlen = .ok (stream.take maxlen, stream.drop maxlen))
    ∧ (stream.length < maxlen → 10 ∉ stream →
        skreadline stream maxlen = .error .eofError) := by
  refine ⟨?_, ?_, ?_, ?_⟩
  · intro l r h
    obtain ⟨t, hl, hlen, hs, hnl⟩ := skreadlineAux_ok maxlen stream [] l r h
    simp at hl
    subst hl
    exact ⟨hlen, hs, hnl⟩
  · intro i hi hpre hnl
    have := skreadlineAux_newline i maxlen stream [] hi hpre hnl
    simpa [skreadline] using this
  · intro hnl hlen
    have := skreadlineAux_maxlen maxlen stream [] hnl hlen
    simpa [skreadline] using this
  · intro hlen hnl
    exact skreadlineAux_eof stream maxlen [] hlen hnl

/-- C9 witness: a concrete read stopping at the newline. -/
theorem c9_skreadline_witness :
    skreadline [104, 105, 10, 120] 1024 = .ok ([104, 105, 10], [120]) := by
  have h := (c9_skreadline [104, 105, 10, 120] 1024).2.1 2 (by decide)
    (by decide) (by decide)
  simpa using h

/-- inserting a fresh key at the end of an assoc list makes it found. -/
theorem lookupA_append_self (l : List (List Char × List Char)) (k v : List Char)
    (hfresh : lookupA l k = none) : lookupA (l ++ [(k, v)]) k = some v := by
  induction l with
  | nil => simp [lookupA]
  | cons kv rest ih =>
    rw [lookupA] at hfresh
    by_cases hk : kv.1 = k
    · simp [hk] at hfresh
    · rw [List.cons_append, lookupA, if_neg hk]
      rw [if_neg hk] at hfresh
      exact ih hfresh

/-- C3: for a hostname not yet announced, `announce(h, x)` succeeds and
makes `query(h)` return `x`; a second `announce(h, y)` fails with the
*host already registered* error wrapped as `RegistryError` (passed
through unwrapped since `ErrHostDup` is well-defined), and the failed
announce leaves the stored value at `x`. -/
theorem c3_announce_query (db : RegDB) (hn x y : List Char)
    (hfresh : lookupA db.hosts hn = none) :
    ∃ db2, announce db hn x = .ok db2
      ∧ regQuery db2 hn = .ok (some x)
      ∧ announce db2 hn y = .error (.regError .hostDup)
      ∧ regQuery db2 hn = .ok (some x) := by
  have hfound := lookupA_append_self db.hosts hn x hfresh
  refine ⟨{ db with hosts := db.hosts ++ [(hn, x)] }, ?_, ?_, ?_, ?_⟩
  · simp [announce, hfresh]
  · simp [regQuery, hfound]
  · simp [announce, hfound, regerrWrap]
  · simp [regQuery, hfound]

/-- C3 witness: a fresh registry, hostname `b`. -/
theorem c3_announce_query_witness :
    ∃ db2, announce ⟨[], []⟩ "b".toList "x".toList = .ok db2
      ∧ regQuery db2 "b".toList = .ok (some "x".toList)
      ∧ announce db2 "b".toList "y".toList = .error (.regError .hostDup)
      ∧ regQuery db2 "b".toList = .ok (some "x".toList) :=
  c3_announce_query ⟨[], []⟩ "b".toList "x".toList "y".toList (by decide)

/-- the allocator scan never goes backwards. -/
theorem scanFrom_ge (v : List (Option Sock)) (port : Nat) :
    port ≤ scanFrom v port := by
  induction port using scanFrom.induct (v := v) with
  | case1 x h hfree => rw [scanFrom]; simp [h, hfree]
  | case2 x h val hocc ih => rw [scanFrom]; simp only [h, dif_pos, hocc]; omega
  | case3 x h => rw [scanFrom]; simp [h]

/-- every slot the scan passed over was occupied. -/
theorem scanFrom_min (v : List (Option Sock)) (port : Nat) :
    ∀ q, port ≤ q → q < scanFrom v port → ∃ sk, v[q]? = some (some sk) := by
  induction port using scanFrom.induct (v := v) with
  | case1 x h hfree =>
    rw [scanFrom] at *
    simp [h, hfree]
    omega
  | case2 x h val hocc ih =>
    intro q hq1 hq2
    rw [scanFrom] at hq2
    simp only [h, dif_pos, hocc] at hq2
    rcases Nat.eq_or_lt_of_le hq1 with heq | hlt
    · subst heq
      exact ⟨val, by rw [List.getElem?_eq_getElem h, hocc]⟩
    · exact ih q hlt hq2
  | case3 x h =>
    rw [scanFrom]
    simp [h]
    omega

/-- if the scan stops inside the table, it stops at a free slot. -/
theorem scanFrom_free (v : List (Option Sock)) (port : Nat) :
    scanFrom v port < v.length → v[scanFrom v port]? = some none := by
  induction port using scanFrom.induct (v := v) with
  | case1 x h hfree =>
    rw [scanFrom]
    simp only [h, dif_pos, hfree]
    intro _
    rw [List.getElem?_eq_getElem h, hfree]
  | case2 x h val hocc ih =>
    rw [scanFrom]
    simp only [h, dif_pos, hocc]
    exact ih
  | case3 x h =>
    rw [scanFrom]
    simp [h]

/-- the scan stops no later than just past the table. -/
theorem scanFrom_le (v : List (Option Sock)) (port : Nat) :
    scanFrom v port ≤ max v.length port := by
  induction port using scanFrom.induct (v := v) with
  | case1 x h hfree => rw [scanFrom]; simp [h, hfree]
  | case2 x h val hocc ih =>
    rw [scanFrom]
    simp only [h, dif_pos, hocc]
    omega
  | case3 x h => rw [scanFrom]; simp [h]

/-- the append loop appends exactly the missing number of null slots. -/
theorem extendLoop_eq (v : List (Option Sock)) (port : Nat) :
    extendLoop v port = v ++ List.replicate (port + 1 - v.length) none := by
  induction v, port using extendLoop.induct with
  | case1 v p hge ih =>
    rw [extendLoop, if_pos hge, ih]
    simp at hge
    have : p + 1 - v.length = (p + 1 - (v.length + 1)) + 1 := by omega
    rw [this, List.replicate_succ]
    simp
  | case2 v p hlt =>
    rw [extendLoop, if_neg hlt]
    simp at hlt
    have : p + 1 - v.length = 0 := by omega
    rw [this]
    simp

/-- C4: `_allocFreeSocket` installs a fresh socket, whose `port` field is
the chosen index, at the smallest positive free index: all smaller
positive indices are occupied, the chosen slot was free if it already
existed, the table is extended by appending nulls exactly up to the
chosen index, no other slot changes, and port 0 is never chosen. -/
theorem c4_allocFreeSocket (h h2 : HostState) (p : Nat)
    (halloc : allocFreeSocket h = (h2, p)) :
    1 ≤ p
    ∧ (∀ q, 1 ≤ q → q < p → ∃ sk, h.socketv[q]? = some (some sk))
    ∧ (p < h.socketv.length → h.socketv[p]? = some none)
    ∧ h2.socketv[p]? = some (some ⟨(p : Int), false, false, false⟩)
    ∧ (∀ q, q ≠ p → q < h.socketv.length → h2.socketv[q]? = h.socketv[q]?)
    ∧ (∀ q, h.socketv.length ≤ q → q < h2.socketv.length → q ≠ p →
        h2.socketv[q]? = some none)
    ∧ h2.socketv.length = max h.socketv.length (p + 1) := by
  simp only [allocFreeSocket] at halloc
  obtain ⟨hh2, hp⟩ := Prod.mk.injEq .. ▸ halloc
  subst hp
  set v := h.socketv with hv
  set p := scanFrom v 1 with hpdef
  have hge := scanFrom_ge v 1
  have hle := scanFrom_le v 1
  have hext := extendLoop_eq v p
  have hextlen : (extendLoop v p).length = max v.length (p + 1) := by
    rw [hext]
    simp
    omega
  have hplt : p < (extendLoop v p).length := by omega
  have hsockv : h2.socketv = (extendLoop v p).set p (some ⟨(p : Int), false, false, false⟩) := by
    rw [← hh2]
  refine ⟨hge, scanFrom_min v 1, scanFrom_free v 1, ?_, ?_, ?_, ?_⟩
  · rw [hsockv, List.getElem?_set_self hplt]
  · intro q hq hqlen
    rw [hsockv, List.getElem?_set_ne (fun a => hq a.symm), hext,
      List.getElem?_append_left hqlen]
  · intro q hq1 hq2 hq3
    rw [hsockv] at hq2
    simp at hq2
    rw [hsockv, List.getElem?_set_ne (fun a => hq3 a.symm), hext,
      List.getElem?_append_right hq1, List.getElem?_replicate_of_lt (by omega)]
  · rw [hsockv]
    simp [hextlen]

unseal scanFrom extendLoop in
/-- C4 witness: on a table with the slot at index 2 freed (1 and 3
occupied), allocation hands out the freed index 2 again. -/
theorem c4_allocFreeSocket_witness :
    (⟨"n".toList, "a".toList,
      [none, some ⟨1, false, true, false⟩, some ⟨2, false, false, false⟩,
       some ⟨3, true, false, false⟩], false, false⟩ : HostState).socketv[2]? =
      some (some ⟨2, false, false, false⟩) :=
  (c4_allocFreeSocket
    ⟨"n".toList, "a".toList,
      [none, some ⟨1, false, true, false⟩, none, some ⟨3, true, false, false⟩],
      false, false⟩
    ⟨"n".toList, "a".toList,
      [none, some ⟨1, false, true, false⟩, some ⟨2, false, false, false⟩,
       some ⟨3, true, false, false⟩], false, false⟩
    2 (by decide)).2.2.2.1

/-- for a negative port the `while port >= len` extension loop is a no-op. -/
theorem extendLoopI_neg (v : List (Option Sock)) (p : Int) (hp : p < 0) :
    extendLoopI v p = v := by
  rw [extendLoopI, if_neg (by omega)]

/-- C10: `Addr.parse` accepts a negative port (`":-1"` resolves to port
`-1` relative to the host), and `Host.listen` feeds it straight to the
table as a Python index: when the highest slot of `socketv` is occupied,
`listen(":-1")` fails with *address already in use*; when the highest
slot is free, it installs a socket there whose `port` field `-1` differs
from its actual index.  Port positivity is not enforced. -/
theorem c10_negative_port (net nm : List Char) (v : List (Option Sock)) (sk : Sock) :
    Addr.parse net ":-1".toList = .ok ⟨net, [], -1⟩
    ∧ (v.getLast? = some (some sk) →
        Host.listen ⟨net, nm, v, false, false⟩ ":-1".toList =
          .error (.ectx ("listen ".toList ++ net ++ [' '] ++ ":-1".toList) .addrAlreadyUsed))
    ∧ (v.getLast? = some none →
        Host.listen ⟨net, nm, v, false, false⟩ ":-1".toList =
          .ok (⟨net, nm, v.set (v.length - 1) (some ⟨-1, false, true, false⟩),
                false, false⟩, v.length - 1)
          ∧ ((v.length - 1 : Int) ≠ (-1 : Int))) := by
  have hparse : parseAddr ⟨net, nm, v, false, false⟩ [':', '-', '1'] = .ok ⟨net, nm, -1⟩ := rfl
  refine ⟨rfl, ?_, ?_⟩
  · intro hlast
    have hne : v ≠ [] := by
      intro hnil
      rw [hnil] at hlast
      simp at hlast
    have hlen : 1 ≤ v.length := List.length_pos.mpr hne
    have hidx : pyIdx v.length (-1) = some (v.length - 1) := by
      rw [pyIdx, if_neg (by omega), if_pos (by omega)]
      congr 1
      omega
    have hget : v[v.length - 1]? = some (some sk) := by
      rw [← List.getLast?_eq_getElem? v]
      exact hlast
    have hinner : listenInner ⟨net, nm, v, false, false⟩ [':', '-', '1'] =
        .error PErr.addrAlreadyUsed := by
      rw [listenInner.eq_def]
      split
      · next e heq =>
        rw [hparse] at heq
        simp at heq
      · next a heq =>
        rw [hparse] at heq
        simp at heq
        subst heq
        rw [if_neg (by simp), if_neg (by simp), if_neg (by simp),
          extendLoopI_neg v (-1) (by omega)]
        simp only [hidx, hget]
    simp [Host.listen, hinner]
  · intro hlast
    have hne : v ≠ [] := by
      intro hnil
      rw [hnil] at hlast
      simp at hlast
    have hlen : 1 ≤ v.length := List.length_pos.mpr hne
    have hidx : pyIdx v.length (-1) = some (v.length - 1) := by
      rw [pyIdx, if_neg (by omega), if_pos (by omega)]
      congr 1
      omega
    have hget : v[v.length - 1]? = some none := by
      rw [← List.getLast?_eq_getElem? v]
      exact hlast
    have hinner : listenInner ⟨net, nm, v, false, false⟩ [':', '-', '1'] =
        .ok (⟨net, nm, v.set (v.length - 1) (some ⟨-1, false, true, false⟩),
              false, false⟩, v.length - 1) := by
      rw [listenInner.eq_def]
      split
      · next e heq =>
        rw [hparse] at heq
        simp at heq
      · next a heq =>
        rw [hparse] at heq
        simp at heq
        subst heq
        rw [if_neg (by simp), if_neg (by simp), if_neg (by simp),
          extendLoopI_neg v (-1) (by omega)]
        simp only [hidx, hget]
    refine ⟨by simp [Host.listen, hinner], by omega⟩

/-- C10 witness: concrete tables with the top slot occupied / free. -/
theorem c10_negative_port_witness :
    Host.listen ⟨"n".toList, "a".toList, [none, some ⟨1, false, true, false⟩],
        false, false⟩ ":-1".toList =
      .error (.ectx ("listen ".toList ++ "n".toList ++ [' '] ++ ":-1".toList) .addrAlreadyUsed)
    ∧ (Host.listen ⟨"n".toList, "a".toList, [none, none], false, false⟩ ":-1".toList =
        .ok (⟨"n".toList, "a".toList,
              [none, none].set 1 (some ⟨-1, false, true, false⟩), false, false⟩, 1)
        ∧ ((1 : Int) ≠ (-1 : Int))) :=
  ⟨(c10_negative_port "n".toList "a".toList [none, some ⟨1, false, true, false⟩]
      ⟨1, false, true, false⟩).2.1 (by decide),
   (c10_negative_port "n".toList "a".toList [none, none]
      ⟨1, false, true, false⟩).2.2 (by decide)⟩

/-- facts about decimal digit characters, by finite check. -/
theorem digitChar_props : ∀ d, d < 10 →
    isDigitC (Char.ofNat (48 + d)) = true ∧ Char.ofNat (48 + d) ≠ ':' ∧
    pySpace (Char.ofNat (48 + d)) = false ∧ Char.ofNat (48 + d) ≠ '-' ∧
    Char.ofNat (48 + d) ≠ '+' ∧ (Char.ofNat (48 + d)).toNat = 48 + d := by
  decide

/-- `natDigits` yields digit characters only. -/
theorem natDigits_mem (n : Nat) :
    ∀ c ∈ natDigits n, ∃ d, d < 10 ∧ c = Char.ofNat (48 + d) := by
  induction n using natDigits.induct with
  | case1 n h =>
    rw [natDigits, if_pos h]
    intro c hc
    simp at hc
    exact ⟨n, h, hc⟩
  | case2 n h ih =>
    rw [natDigits, if_neg h]
    intro c hc
    rcases List.mem_append.mp hc with hc | hc
    · exact ih c hc
    · simp at hc
      exact ⟨n % 10, Nat.mod_lt _ (by omega), hc⟩

/-- `natDigits` is never empty. -/
theorem natDigits_ne_nil (n : Nat) : natDigits n ≠ [] := by
  rw [natDigits]
  split <;> simp

/-- folding a trailing digit. -/
theorem digitsVal_append (ds : List Char) (c : Char) :
    digitsVal (ds ++ [c]) = digitsVal ds * 10 + (c.toNat - 48) := by
  simp [digitsVal, List.foldl_append]

/-- the digits of `n` evaluate back to `n`. -/
theorem digitsVal_natDigits (n : Nat) : digitsVal (natDigits n) = n := by
  induction n using natDigits.induct with
  | case1 n h =>
    rw [natDigits, if_pos h]
    have := (digitChar_props n h).2.2.2.2.2
    simp [digitsVal, this]
  | case2 n h ih =>
    rw [natDigits, if_neg h, digitsVal_append, ih,
      (digitChar_props (n % 10) (Nat.mod_lt _ (by omega))).2.2.2.2.2]
    omega

/-- `decDigits` round-trips `natDigits`. -/
theorem decDigits_natDigits (n : Nat) : decDigits (natDigits n) = some n := by
  rw [decDigits, if_pos, digitsVal_natDigits]
  refine ⟨natDigits_ne_nil n, ?_⟩
  rw [List.all_eq_true]
  intro c hc
  obtain ⟨d, hd, rfl⟩ := natDigits_mem n c hc
  exact (digitChar_props d hd).1

/-- a list none of whose characters is stripped stays intact. -/
theorem dropWhile_eq_self_of_all (p : Char → Bool) (l : List Char)
    (h : ∀ c ∈ l, p c = false) : l.dropWhile p = l := by
  cases l with
  | nil => rfl
  | cons c rest =>
    rw [List.dropWhile_cons, h c (by simp)]
    simp

/-- whitespace stripping is the identity on space-free strings. -/
theorem strip_eq_self (l : List Char) (h : ∀ c ∈ l, pySpace c = false) :
    ((l.dropWhile pySpace).reverse.dropWhile pySpace).reverse = l := by
  rw [dropWhile_eq_self_of_all pySpace l h,
    dropWhile_eq_self_of_all pySpace l.reverse (by
      intro c hc
      exact h c (List.mem_reverse.mp hc)),
    List.reverse_reverse]

/-- Python `int` parses back what `"%d"` printed. -/
theorem pyint_intRepr (n : Int) : pyint (intRepr n) = some n := by
  by_cases hn : n < 0
  · rw [intRepr, if_pos hn, pyint]
    have hstrip := strip_eq_self ('-' :: natDigits n.natAbs) (by
      intro c hc
      rcases List.mem_cons.mp hc with rfl | hc
      · decide
      · obtain ⟨d, hd, rfl⟩ := natDigits_mem n.natAbs c hc
        exact (digitChar_props d hd).2.2.1)
    rw [hstrip, pyintCore, if_pos rfl, decDigits_natDigits]
    simp only [Option.map_some', Option.some.injEq, Int.ofNat_eq_coe]
    omega
  · rw [intRepr, if_neg hn, pyint]
    have hstrip := strip_eq_self (natDigits n.natAbs) (by
      intro c hc
      obtain ⟨d, hd, rfl⟩ := natDigits_mem n.natAbs c hc
      exact (digitChar_props d hd).2.2.1)
    rw [hstrip]
    obtain ⟨c, ds, hcds⟩ : ∃ c ds, natDigits n.natAbs = c :: ds := by
      cases h : natDigits n.natAbs with
      | nil => exact absurd h (natDigits_ne_nil _)
      | cons c ds => exact ⟨c, ds, rfl⟩
    obtain ⟨d, hd, hcd⟩ := natDigits_mem n.natAbs c (by rw [hcds]; simp)
    rw [hcds, pyintCore, hcd, if_neg (digitChar_props d hd).2.2.2.1,
      if_neg (digitChar_props d hd).2.2.2.2.1, ← hcd, ← hcds, decDigits_natDigits]
    simp only [Option.map_some', Option.some.injEq, Int.ofNat_eq_coe]
    omega

/-- `split(':')` always yields at least one part. -/
theorem splitColon_ne_nil (s : List Char) : splitColon s ≠ [] := by
  induction s with
  | nil => simp [splitColon]
  | cons c rest ih =>
    rw [splitColon]
    cases h : splitColon rest with
    | nil => exact absurd h ih
    | cons p ps =>
      rw [splitColonStep]
      split <;> simp

/-- a colon-free string splits into itself. -/
theorem splitColon_no_colon (s : List Char) (h : ':' ∉ s) : splitColon s = [s] := by
  induction s with
  | nil => rfl
  | cons c rest ih =>
    rw [splitColon, ih (fun hm => h (by simp [hm])), splitColonStep,
      if_neg (fun hc => h (by simp [hc]))]

/-- splitting at the first colon of `h ++ ':' :: d`. -/
theorem splitColon_append (hh d : List Char) (hcolon : ':' ∉ hh) :
    splitColon (hh ++ ':' :: d) = hh :: splitColon d := by
  induction hh with
  | nil =>
    rw [List.nil_append, splitColon]
    cases h : splitColon d with
    | nil => exact absurd h (splitColon_ne_nil d)
    | cons p ps => rw [splitColonStep, if_pos rfl, ← h]
  | cons c rest ih =>
    rw [List.cons_append, splitColon, ih (fun hm => hcolon (by simp [hm])),
      splitColonStep, if_neg (fun hc => hcolon (by simp [hc]))]

/-- a one-part split means the string was colon-free. -/
theorem splitColon_single (s p : List Char) (h : splitColon s = [p]) :
    s = p ∧ ':' ∉ p := by
  induction s generalizing p with
  | nil =>
    rw [splitColon] at h
    simp at h
    subst h
    exact ⟨rfl, by simp⟩
  | cons c rest ih =>
    rw [splitColon] at h
    cases hs : splitColon rest with
    | nil => exact absurd hs (splitColon_ne_nil rest)
    | cons q qs =>
      rw [hs, splitColonStep] at h
      by_cases hc : c = ':'
      · rw [if_pos hc] at h
        simp at h
      · rw [if_neg hc] at h
        simp at h
        obtain ⟨hq, hqs⟩ := h
        obtain ⟨hrest, hnc⟩ := ih q (by rw [hs, hqs])
        constructor
        · rw [← hq, hrest]
        · rw [← hq]
          intro hm
          rcases List.mem_cons.mp hm with heq | hm2
          · exact hc heq.symm
          · exact hnc hm2

/-- a two-part split recovers the unique decomposition at the one colon. -/
theorem splitColon_pair (s hh d : List Char) (h : splitColon s = [hh, d]) :
    s = hh ++ ':' :: d ∧ ':' ∉ hh ∧ ':' ∉ d := by
  induction s generalizing hh with
  | nil =>
    rw [splitColon] at h
    simp at h
  | cons c rest ih =>
    rw [splitColon] at h
    cases hs : splitColon rest with
    | nil => exact absurd hs (splitColon_ne_nil rest)
    | cons q qs =>
      rw [hs, splitColonStep] at h
      by_cases hc : c = ':'
      · rw [if_pos hc] at h
        simp at h
        obtain ⟨hhh, hq, hqs⟩ := h
        obtain ⟨hrest, hnc⟩ := splitColon_single rest d (by rw [hs, hq, hqs])
        subst hc
        subst hhh
        exact ⟨by rw [hrest]; simp, by simp, hnc⟩
      · rw [if_neg hc] at h
        simp at h
        obtain ⟨hcq, hqs⟩ := h
        obtain ⟨hrest, hh1, hd1⟩ := ih q (by rw [hs, hqs])
        refine ⟨by rw [← hcq, hrest]; simp, ?_, hd1⟩
        rw [← hcq]
        intro hm
        rcases List.mem_cons.mp hm with heq | hm2
        · exact hc heq.symm
        · exact hh1 hm2

/-- no colon appears in a formatted port number. -/
theorem intRepr_no_colon (n : Int) : ':' ∉ intRepr n := by
  intro hm
  rw [intRepr] at hm
  have hdig : ∀ c ∈ natDigits n.natAbs, c ≠ ':' := by
    intro c hc
    obtain ⟨d, hd, rfl⟩ := natDigits_mem n.natAbs c hc
    exact (digitChar_props d hd).2.1
  split at hm
  · rcases List.mem_cons.mp hm with heq | hm2
    · exact absurd heq.symm (by decide)
    · exact hdig _ hm2 rfl
  · exact hdig _ hm rfl

/-- C7 (amended): round trip holds for every `Addr` whose host contains
no colon — `Addr.parse(a.net, str(a)) == a` — and `Addr.parse` fails
(with the *invalid address* ValueError) exactly when the text does not
decompose as `part ':' rest` with exactly one colon and `rest` acceptable
to Python's `int`. -/
theorem c7_addr_parse_roundtrip (a : Addr) (net text : List Char) :
    (':' ∉ a.host → Addr.parse a.net a.str = .ok a)
    ∧ (Addr.parse net text = .error .invalidAddr ↔
        ¬ ∃ hh dd n, text = hh ++ ':' :: dd ∧ ':' ∉ hh ∧ ':' ∉ dd ∧
          pyint dd = some n) := by
  constructor
  · intro hhost
    obtain ⟨anet, ahost, aport⟩ := a
    simp only [Addr.str, addrstr4] at *
    rw [Addr.parse, splitColon_append ahost (intRepr aport) hhost,
      splitColon_no_colon (intRepr aport) (intRepr_no_colon aport)]
    simp only [addrParse2]
    rw [pyint_intRepr aport]
  · constructor
    · intro herr hex
      obtain ⟨hh, dd, n, htext, hhh, hdd, hn⟩ := hex
      rw [htext, Addr.parse, splitColon_append hh dd hhh,
        splitColon_no_colon dd hdd] at herr
      simp only [addrParse2] at herr
      rw [hn] at herr
      simp at herr
    · intro hno
      rw [Addr.parse]
      match hs : splitColon text with
      | [] => exact absurd hs (splitColon_ne_nil text)
      | [x] => rfl
      | [x, y] =>
        obtain ⟨htext, hx, hy⟩ := splitColon_pair text x y hs
        match hp : pyint y with
        | some n => exact absurd ⟨x, y, n, htext, hx, hy, hp⟩ hno
        | none =>
          simp only [addrParse2]
          rw [hp]
      | x :: y :: z :: zs => rfl

unseal natDigits in
/-- C7 counterexample: the claim quantifies over *any* host string, but
for a host containing a colon the round trip fails —
`str(Addr("n", "a:b", 1)) = "a:b:1"` splits into three parts and
`Addr.parse` rejects it. -/
theorem c7_colon_host_counterexample :
    Addr.parse "n".toList (Addr.str ⟨"n".toList, "a:b".toList, 1⟩) =
      .error .invalidAddr := by
  decide

/-- C7 witness: the colon-free host `ab` with port `-17` round-trips. -/
theorem c7_addr_parse_roundtrip_witness :
    Addr.parse "n".toList (Addr.str ⟨"n".toList, "ab".toList, -17⟩) =
      .ok ⟨"n".toList, "ab".toList, -17⟩ :=
  (c7_addr_parse_roundtrip ⟨"n".toList, "ab".toList, -17⟩ [] []).1 (by decide)

-- ---------------------------------------------------------------------
-- C6: properties of the qq-quoted content and of the lazy/greedy matchers
-- ---------------------------------------------------------------------

/-- adjacency relation of a quoted content: a quote byte may only follow
a backslash. -/
def quoteEsc (x y : Nat) : Prop := y = 34 → x = 92

/-- hex digit bytes are never quote, backslash or newline. -/
theorem hexDigit_ne (d : Nat) : hexDigit d ≠ 34 ∧ hexDigit d ≠ 92 ∧ hexDigit d ≠ 10 := by
  rw [hexDigit]
  split <;> omega

/-- escaped chunks are nonempty. -/
theorem qqEsc_ne_nil (b : Nat) : qqEsc b ≠ [] := by
  rw [qqEsc]
  repeat' split
  all_goals simp

/-- no raw newline survives in an escaped chunk. -/
theorem qqEsc_no10 (b : Nat) : 10 ∉ qqEsc b := by
  rw [qqEsc]
  have r1 := hexDigit_ne (b / 16)
  have r2 := hexDigit_ne (b % 16)
  repeat' split
  all_goals (try simp) <;> omega

/-- an escaped chunk never starts with a quote byte. -/
theorem qqEsc_head_ne34 (b : Nat) : (qqEsc b).head? ≠ some 34 := by
  rw [qqEsc]
  repeat' split
  all_goals (try simp) <;> omega

/-- an escaped chunk of a non-backslash byte never ends in a backslash. -/
theorem qqEsc_last_ne92 (b : Nat) (hb : b ≠ 92) : (qqEsc b).getLast? ≠ some 92 := by
  rw [qqEsc]
  have r2 := hexDigit_ne (b % 16)
  repeat' split
  all_goals (try simp) <;> omega

/-- inside an escaped chunk a quote only follows a backslash. -/
theorem qqEsc_chain (b : Nat) : List.Chain' quoteEsc (qqEsc b) := by
  rw [qqEsc]
  have r1 := hexDigit_ne (b / 16)
  have r2 := hexDigit_ne (b % 16)
  repeat' split
  all_goals (try simp [List.chain'_cons, quoteEsc]) <;> omega

/-- quoted content of a nonempty string is nonempty. -/
theorem qqc_ne_nil (S : List Nat) (h : S ≠ []) : qqc S ≠ [] := by
  cases S with
  | nil => exact absurd rfl h
  | cons b rest =>
    rw [qqc]
    simp [qqEsc_ne_nil b]

/-- no raw newline appears in quoted content. -/
theorem qqc_no10 (S : List Nat) : 10 ∉ qqc S := by
  induction S with
  | nil => simp [qqc]
  | cons b rest ih =>
    rw [qqc]
    intro hm
    rcases List.mem_append.mp hm with hm | hm
    · exact qqEsc_no10 b hm
    · exact ih hm

/-- quoted content never starts with a quote byte. -/
theorem qqc_head_ne34 (S : List Nat) : (qqc S).head? ≠ some 34 := by
  cases S with
  | nil => simp [qqc]
  | cons b rest =>
    rw [qqc, List.head?_append_of_ne_nil _ (qqEsc_ne_nil b)]
    exact qqEsc_head_ne34 b

/-- quoted content of a string not ending in a backslash does not end in
a backslash. -/
theorem qqc_last_ne92 (S : List Nat) (h : S.getLast? ≠ some 92) :
    (qqc S).getLast? ≠ some 92 := by
  induction S with
  | nil => simp [qqc]
  | cons b rest ih =>
    cases rest with
    | nil =>
      rw [qqc, qqc]
      simp only [List.append_nil]
      exact qqEsc_last_ne92 b (by simpa using h)
    | cons y rest2 =>
      rw [qqc, List.getLast?_append_of_ne_nil _ (qqc_ne_nil (y :: rest2) (by simp))]
      exact ih (by rwa [List.getLast?_cons_cons] at h)

/-- in quoted content every quote byte follows a backslash. -/
theorem qqc_chain (S : List Nat) : List.Chain' quoteEsc (qqc S) := by
  induction S with
  | nil => simp [qqc]
  | cons b rest ih =>
    rw [qqc, List.chain'_append]
    refine ⟨qqEsc_chain b, ih, ?_⟩
    intro x _ y hy
    intro hy34
    exact absurd (hy34 ▸ hy : (qqc rest).head? = some 34) (qqc_head_ne34 rest)

/-- consuming a literal that is literally there. -/
theorem dropLit_append (l r : List Nat) : dropLit l (l ++ r) = some r := by
  induction l with
  | nil => rfl
  | cons a l' ih => rw [List.cons_append, dropLit, if_pos rfl, ih]

/-- a literal never matches at a differing first byte. -/
theorem dropLit_cons_ne (a : Nat) (l : List Nat) (b : Nat) (s : List Nat)
    (h : b ≠ a) : dropLit (a :: l) (b :: s) = none := by
  rw [dropLit, if_neg h]

/-- completeness of the lazy quoted-group matcher: on `content ++ sep ++
rest` where the content is nonempty, newline-free, does not end in a
backslash and has quotes only after backslashes (all true of `qq`
output), and where the rest of the pattern accepts `rest`, the group
captures exactly the content. -/
theorem grpThen_complete {α : Type} (sepTail : List Nat) (k : List Nat → Option α)
    (a : α) (r : List Nat) (hk : k r = some a) :
    ∀ (todo acc : List Nat), todo ≠ [] → 10 ∉ todo →
      todo.getLast? ≠ some 92 → List.Chain' quoteEsc todo →
      grpThen (34 :: sepTail) k acc (todo ++ (34 :: sepTail) ++ r) =
        some (acc ++ todo, a) := by
  intro todo
  induction todo with
  | nil => intro acc h _ _ _; exact absurd rfl h
  | cons x rest ih =>
    intro acc _ h10 hlast hchain
    cases rest with
    | nil =>
      have hx : x ≠ 92 := by
        intro h
        exact hlast (by simp [h])
      simp only [List.cons_append, List.nil_append]
      rw [grpThen]
      have hdrop := dropLit_append (34 :: sepTail) r
      simp only [List.cons_append] at hdrop
      simp [if_pos hx, hdrop, hk]
    | cons y rest2 =>
      obtain ⟨hxy, hchain2⟩ := List.chain'_cons.mp hchain
      have hx10 : x ≠ 10 := fun h => h10 (by simp [h])
      have h10b : (10 : Nat) ∉ y :: rest2 := fun h => h10 (List.mem_cons_of_mem _ h)
      have hlastb : (y :: rest2).getLast? ≠ some 92 := by
        rwa [List.getLast?_cons_cons] at hlast
      have hrec := ih (acc ++ [x]) (by simp) h10b hlastb hchain2
      simp only [List.cons_append] at hrec ⊢
      by_cases hx : x = 92
      · subst hx
        rw [grpThen]
        rw [if_neg (by simp)]
        simp only [Option.orElse]
        rw [if_pos (by decide), hrec]
        simp
      · have hy : y ≠ 34 := fun h34 => hx (hxy h34)
        rw [grpThen]
        rw [if_pos hx, dropLit_cons_ne 34 sepTail y _ hy]
        simp only [Option.none_bind, Option.orElse]
        rw [if_pos hx10, hrec]
        simp

/-- completeness of the greedy verb matcher `[^\s]+` followed by `sep`:
on `verb ++ sep ++ rest` with a nonempty whitespace-free verb and `sep`
starting with a whitespace byte, the group captures exactly the verb. -/
theorem vrbThen_complete {α : Type} (w : Nat) (sepTail : List Nat) (hw : isWS w = true)
    (k : List Nat → Option α) (a : α) (r : List Nat) (hk : k r = some a) :
    ∀ (verb acc : List Nat), verb ≠ [] → (∀ c ∈ verb, isWS c = false) →
      vrbThen (w :: sepTail) k acc (verb ++ (w :: sepTail) ++ r) =
        some (acc ++ verb, a) := by
  intro verb
  induction verb with
  | nil => intro acc h _; exact absurd rfl h
  | cons x rest ih =>
    intro acc _ hws
    have hxws : isWS x = false := hws x (by simp)
    simp only [List.cons_append, List.nil_append]
    cases rest with
    | nil =>
      have hdrop := dropLit_append (w :: sepTail) r
      simp only [List.cons_append] at hdrop
      rw [vrbThen, if_neg (by simp [hxws])]
      simp only [List.cons_append, List.nil_append]
      rw [vrbThen, if_pos hw, vrbEnd, if_neg (by simp), hdrop]
      simp [hk]
    | cons y rest2 =>
      have h2 := ih (acc ++ [x]) (by simp) (fun c hc => hws c (by simp [hc]))
      simp only [List.cons_append] at h2
      rw [vrbThen, if_neg (by simp [hxws])]
      simp only [List.cons_append]
      rw [h2]
      simp

/-- hex digits decode to their value. -/
theorem hexVal_hexDigit : ∀ d, d < 16 → hexVal (hexDigit d) = some d := by decide

/-- decoding one recognised two-byte escape. -/
theorem unesc_esc2 (e v : Nat) (t : List Nat)
    (h : (e, v) ∈ [(110, 10), (116, 9), (114, 13), (97, 7), (98, 8), (102, 12),
                   (118, 11), (39, 39), (34, 34), (92, 92)]) :
    unesc (92 :: e :: t) = (unesc t).map (fun r => v :: r) := by
  fin_cases h <;>
    (cases t with
     | nil => rfl
     | cons x t2 =>
       cases t2 with
       | nil => rfl
       | cons y t3 => rfl)

/-- decoding a hex escape. -/
theorem unesc_hex (h1 h2 : Nat) (t : List Nat) :
    unesc (92 :: 120 :: h1 :: h2 :: t) =
      (match hexVal h1, hexVal h2 with
       | some x, some y => (unesc t).map (fun r => (16 * x + y) :: r)
       | _, _ => none) := rfl

/-- decoding a plain (unescaped) byte. -/
theorem unesc_plain (b : Nat) (t : List Nat) (hb : b ≠ 92) :
    unesc (b :: t) = (unesc t).map (fun r => b :: r) := by
  rw [unesc.eq_def]
  split
  · rename_i heq
    simp at heq
  · rename_i b2 rest2 heq
    simp at heq
    obtain ⟨rfl, rfl⟩ := heq
    rw [if_neg hb]

/-- `string_escape` decoding inverts the `qq` escape on byte strings. -/
theorem unesc_qqc (S : List Nat) (hball : ∀ b ∈ S, b < 256) :
    unesc (qqc S) = some S := by
  induction S with
  | nil => rfl
  | cons b rest ih =>
    have ihr := ih (fun x hx => hball x (by simp [hx]))
    have hblt : b < 256 := hball b (by simp)
    rw [qqc]
    by_cases h34 : b = 34
    · subst h34
      rw [show qqEsc 34 = [92, 34] from rfl]
      simp only [List.cons_append, List.nil_append]
      rw [unesc_esc2 34 34 _ (by simp), ihr]
      rfl
    by_cases h92 : b = 92
    · subst h92
      rw [show qqEsc 92 = [92, 92] from rfl]
      simp only [List.cons_append, List.nil_append]
      rw [unesc_esc2 92 92 _ (by simp), ihr]
      rfl
    by_cases h7 : b = 7
    · subst h7
      rw [show qqEsc 7 = [92, 97] from rfl]
      simp only [List.cons_append, List.nil_append]
      rw [unesc_esc2 97 7 _ (by simp), ihr]
      rfl
    by_cases h8 : b = 8
    · subst h8
      rw [show qqEsc 8 = [92, 98] from rfl]
      simp only [List.cons_append, List.nil_append]
      rw [unesc_esc2 98 8 _ (by simp), ihr]
      rfl
    by_cases h9 : b = 9
    · subst h9
      rw [show qqEsc 9 = [92, 116] from rfl]
      simp only [List.cons_append, List.nil_append]
      rw [unesc_esc2 116 9 _ (by simp), ihr]
      rfl
    by_cases h10 : b = 10
    · subst h10
      rw [show qqEsc 10 = [92, 110] from rfl]
      simp only [List.cons_append, List.nil_append]
      rw [unesc_esc2 110 10 _ (by simp), ihr]
      rfl
    by_cases h11 : b = 11
    · subst h11
      rw [show qqEsc 11 = [92, 118] from rfl]
      simp only [List.cons_append, List.nil_append]
      rw [unesc_esc2 118 11 _ (by simp), ihr]
      rfl
    by_cases h12 : b = 12
    · subst h12
      rw [show qqEsc 12 = [92, 102] from rfl]
      simp only [List.cons_append, List.nil_append]
      rw [unesc_esc2 102 12 _ (by simp), ihr]
      rfl
    by_cases h13 : b = 13
    · subst h13
      rw [show qqEsc 13 = [92, 114] from rfl]
      simp only [List.cons_append, List.nil_append]
      rw [unesc_esc2 114 13 _ (by simp), ihr]
      rfl
    by_cases hrange : b < 32 ∨ 127 ≤ b
    · rw [qqEsc, if_neg h34, if_neg h92, if_neg h7, if_neg h8, if_neg h9,
        if_neg h10, if_neg h11, if_neg h12, if_neg h13, if_pos hrange]
      simp only [List.cons_append, List.nil_append]
      rw [unesc_hex, hexVal_hexDigit (b / 16) (by omega),
        hexVal_hexDigit (b % 16) (by omega)]
      simp [ihr]
      omega
    · rw [qqEsc, if_neg h34, if_neg h92, if_neg h7, if_neg h8, if_neg h9,
        if_neg h10, if_neg h11, if_neg h12, if_neg h13, if_neg hrange]
      simp only [List.cons_append, List.nil_append]
      rw [unesc_plain b _ h92, ihr]
      rfl

/-- running `_lodial_re` after its literal head has been consumed. -/
theorem lodialMatch_run (X : List Nat) :
    lodialMatch (loHeadD ++ X) =
      (grpThen loSep1 (fun s2 =>
         grpThen loSep2 (fun s3 =>
           grpThen loSep3 (fun r => some r) [] s3) [] s2) [] X).map
        (fun g => (g.1, g.2.1, g.2.2.1)) := by
  unfold lodialMatch
  rw [dropLit_append]
  rfl

/-- running `_loreply_re` after its literal head has been consumed. -/
theorem loreplyMatch_run (X : List Nat) :
    loreplyMatch (loHeadR ++ X) =
      (grpThen loSepR1 (fun s2 =>
         vrbThen loSepR2 (fun s3 =>
           grpThen loSep3 (fun r => some r) [] s3) [] s2) [] X).map
        (fun g => (g.1, g.2.1, g.2.2.1)) := by
  unfold loreplyMatch
  rw [dropLit_append]
  rfl

/-- C6 (amended): the quote-then-parse round trip of the lonet handshake
lines holds for every byte-string argument that is non-empty and does not
end in a backslash byte: the three quoted arguments of the dial request
line and the quoted arguments of the reply line are each captured exactly
and `string_escape`-decode back to the original bytes (the reply verb,
matched unquoted by `[^\s]+`, is any non-empty whitespace-free token). -/
theorem c6_handshake_roundtrip (S1 S2 S3 verb : List Nat)
    (h1n : S1 ≠ []) (h1l : S1.getLast? ≠ some 92) (h1b : ∀ b ∈ S1, b < 256)
    (h2n : S2 ≠ []) (h2l : S2.getLast? ≠ some 92) (h2b : ∀ b ∈ S2, b < 256)
    (h3n : S3 ≠ []) (h3l : S3.getLast? ≠ some 92) (h3b : ∀ b ∈ S3, b < 256)
    (hvn : verb ≠ []) (hvw : ∀ c ∈ verb, isWS c = false) :
    lodialMatch (dialLine S1 S2 S3) = some (qqc S1, qqc S2, qqc S3)
    ∧ unesc (qqc S1) = some S1 ∧ unesc (qqc S2) = some S2 ∧ unesc (qqc S3) = some S3
    ∧ loreplyMatch (replyLine S1 verb S3) = some (qqc S1, verb, qqc S3) := by
  have m3 : grpThen loSep3 (fun r => some r) []
      (qqc S3 ++ loSep3 ++ []) = some (qqc S3, ([] : List Nat)) := by
    have h := grpThen_complete [10] (fun r => some r) [] [] rfl (qqc S3) []
      (qqc_ne_nil S3 h3n) (qqc_no10 S3) (qqc_last_ne92 S3 h3l) (qqc_chain S3)
    simp only [List.nil_append] at h
    rw [show (34 :: [10] : List Nat) = loSep3 from by decide] at h
    exact h
  have m2 : grpThen loSep2 (fun s3 =>
        grpThen loSep3 (fun r => some r) [] s3) []
      (qqc S2 ++ loSep2 ++ (qqc S3 ++ loSep3 ++ [])) =
        some (qqc S2, (qqc S3, ([] : List Nat))) := by
    have h := grpThen_complete [32, 34]
      (fun s3 => grpThen loSep3 (fun r => some r) [] s3)
      (qqc S3, ([] : List Nat)) (qqc S3 ++ loSep3 ++ []) m3 (qqc S2) []
      (qqc_ne_nil S2 h2n) (qqc_no10 S2) (qqc_last_ne92 S2 h2l) (qqc_chain S2)
    simp only [List.nil_append] at h
    rw [show (34 :: [32, 34] : List Nat) = loSep2 from by decide] at h
    exact h
  have m1 : grpThen loSep1 (fun s2 =>
        grpThen loSep2 (fun s3 =>
          grpThen loSep3 (fun r => some r) [] s3) [] s2) []
      (qqc S1 ++ loSep1 ++ (qqc S2 ++ loSep2 ++ (qqc S3 ++ loSep3 ++ []))) =
        some (qqc S1, (qqc S2, (qqc S3, ([] : List Nat)))) := by
    have h := grpThen_complete [32, 100, 105, 97, 108, 32, 34]
      (fun s2 => grpThen loSep2 (fun s3 =>
        grpThen loSep3 (fun r => some r) [] s3) [] s2)
      (qqc S2, (qqc S3, ([] : List Nat)))
      (qqc S2 ++ loSep2 ++ (qqc S3 ++ loSep3 ++ [])) m2 (qqc S1) []
      (qqc_ne_nil S1 h1n) (qqc_no10 S1) (qqc_last_ne92 S1 h1l) (qqc_chain S1)
    simp only [List.nil_append] at h
    rw [show (34 :: [32, 100, 105, 97, 108, 32, 34] : List Nat) = loSep1
      from by decide] at h
    exact h
  have mv : vrbThen loSepR2 (fun s3 =>
        grpThen loSep3 (fun r => some r) [] s3) []
      (verb ++ loSepR2 ++ (qqc S3 ++ loSep3 ++ [])) =
        some (verb, (qqc S3, ([] : List Nat))) := by
    have h := vrbThen_complete 32 [34] (by decide)
      (fun s3 => grpThen loSep3 (fun r => some r) [] s3)
      (qqc S3, ([] : List Nat)) (qqc S3 ++ loSep3 ++ []) m3 verb [] hvn hvw
    simp only [List.nil_append] at h
    rw [show (32 :: [34] : List Nat) = loSepR2 from by decide] at h
    exact h
  have mr1 : grpThen loSepR1 (fun s2 =>
        vrbThen loSepR2 (fun s3 =>
          grpThen loSep3 (fun r => some r) [] s3) [] s2) []
      (qqc S1 ++ loSepR1 ++ (verb ++ loSepR2 ++ (qqc S3 ++ loSep3 ++ []))) =
        some (qqc S1, (verb, (qqc S3, ([] : List Nat)))) := by
    have h := grpThen_complete [32]
      (fun s2 => vrbThen loSepR2 (fun s3 =>
        grpThen loSep3 (fun r => some r) [] s3) [] s2)
      (verb, (qqc S3, ([] : List Nat)))
      (verb ++ loSepR2 ++ (qqc S3 ++ loSep3 ++ [])) mv (qqc S1) []
      (qqc_ne_nil S1 h1n) (qqc_no10 S1) (qqc_last_ne92 S1 h1l) (qqc_chain S1)
    simp only [List.nil_append] at h
    rw [show (34 :: [32] : List Nat) = loSepR1 from by decide] at h
    exact h
  have hline : dialLine S1 S2 S3 =
      loHeadD ++ (qqc S1 ++ loSep1 ++ (qqc S2 ++ loSep2 ++ (qqc S3 ++ loSep3 ++ []))) := by
    rw [dialLine, qq, qq, qq,
      show strBytes "> lonet " = [62, 32, 108, 111, 110, 101, 116, 32] from by decide,
      show strBytes " dial " = [32, 100, 105, 97, 108, 32] from by decide,
      show strBytes " " = [32] from by decide,
      show loHeadD = [62, 32, 108, 111, 110, 101, 116, 32, 34] from by decide,
      show loSep1 = [34, 32, 100, 105, 97, 108, 32, 34] from by decide,
      show loSep2 = [34, 32, 34] from by decide,
      show loSep3 = [34, 10] from by decide]
    simp [List.append_assoc]
  have hline2 : replyLine S1 verb S3 =
      loHeadR ++ (qqc S1 ++ loSepR1 ++ (verb ++ loSepR2 ++ (qqc S3 ++ loSep3 ++ []))) := by
    rw [replyLine, qq, qq,
      show strBytes "< lonet " = [60, 32, 108, 111, 110, 101, 116, 32] from by decide,
      show loHeadR = [60, 32, 108, 111, 110, 101, 116, 32, 34] from by decide,
      show loSepR1 = [34, 32] from by decide,
      show loSepR2 = [32, 34] from by decide,
      show loSep3 = [34, 10] from by decide]
    simp [List.append_assoc]
  refine ⟨?_, unesc_qqc S1 h1b, unesc_qqc S2 h2b, unesc_qqc S3 h3b, ?_⟩
  · rw [hline, lodialMatch_run, m1]
    rfl
  · rw [hline2, loreplyMatch_run, mr1]
    rfl

/-- C6 counterexample: the claim as stated includes the empty string and
strings ending in a backslash, but for those the quoted content is empty
or ends in a backslash, the lazy group `.*?[^\\]` cannot end before the
closing quote, and the dial line fails to match at all (src = `""` and
src = `"\\"` here), so no captured group regenerates S. -/
theorem c6_empty_backslash_counterexample :
    lodialMatch (dialLine [110] [] [97, 58, 49]) = none
    ∧ lodialMatch (dialLine [110] [92] [97, 58, 49]) = none := by
  decide

/-- C6 witness: network `n`, src `a:1`, dst `b:2`, verb `connected`. -/
theorem c6_handshake_roundtrip_witness :
    lodialMatch (dialLine [110] [97, 58, 49] [98, 58, 50]) =
      some (qqc [110], qqc [97, 58, 49], qqc [98, 58, 50])
    ∧ unesc (qqc [110]) = some [110]
    ∧ unesc (qqc [97, 58, 49]) = some [97, 58, 49]
    ∧ unesc (qqc [98, 58, 50]) = some [98, 58, 50]
    ∧ loreplyMatch (replyLine [110] [99, 111, 110, 110, 101, 99, 116, 101, 100]
        [98, 58, 50]) =
      some (qqc [110], [99, 111, 110, 110, 101, 99, 116, 101, 100], qqc [98, 58, 50]) :=
  c6_handshake_roundtrip [110] [97, 58, 49] [98, 58, 50]
    [99, 111, 110, 110, 101, 99, 116, 101, 100]
    (by decide) (by decide) (by decide) (by decide) (by decide) (by decide)
    (by decide) (by decide) (by decide) (by decide) (by decide)
